import Mathlib

/-!
Verification of the interrupt-to-task bridging and monotonic timekeeping
subsystem of the vorago-shared-hal repository: a shallow embedding of
`src/embassy.rs` (monotonic clock, alarm scheduler), `src/gpio/asynch.rs`
(port interrupt dispatcher, GPIO wait futures) and
`src/uart/{rx_asynch,tx_asynch}.rs` (async UART RX/TX pipelines),
together with proofs about the embedded definitions.

Machine integers are modelled as `Nat` with explicit bounds
(`u32Max`, `u64Max`); registers and atomics become record fields and the
interrupt handlers become explicit state-transition functions.
-/

/-- `u32::MAX`. -/
def u32Max : Nat := 4294967295

/-- `u64::MAX`, the sentinel meaning "no alarm pending". -/
def u64Max : Nat := 18446744073709551615

/-- Fact used throughout: `u32Max = 2 ^ 32 - 1`. -/
theorem u32Max_eq : u32Max = 2 ^ 32 - 1 := by decide

/-!
### Monotonic clock and alarm scheduler (`src/embassy.rs`)

State of the `TimerDriver` together with the hardware registers it touches:
`SCALE` (the `OnceCell<u64>`, `none` while uninitialized), the atomic wrap
counter `periods`, the free-running timekeeper timer's count register
`tkCount` (a decrementing counter), the alarm timer's count register,
reset (reload) register and control bits, the cached `AlarmState.timestamp`,
and the external deadline queue (a collection of pending deadlines).

The wrap counter is modelled as an unbounded `Nat`: each wrap interrupt
increments it by exactly one, as described by the specification.
-/
structure TimerDriver where
  scale : Option Nat
  periods : Nat
  tkCount : Nat
  alarm_timestamp : Nat
  alarm_count : Nat
  alarm_reset : Nat
  alarm_irq_enabled : Bool
  alarm_enabled : Bool
  queue : List Nat
deriving Repr

/-- `TimerDriver::now` (`src/embassy.rs:304`), sequential form: with no
concurrent wrap the two `periods` loads agree, so the loop returns on the
first iteration with
`((periods as u64) << 32 | (u32::MAX - counter)) / scale`, and `0` when
`SCALE` is not yet set. -/
def TimerDriver.now (s : TimerDriver) : Nat :=
  match s.scale with
  | none => 0
  | some sc => (((s.periods <<< 32) ||| (u32Max - s.tkCount))) / sc

/-- `TimerDriver::set_alarm` (`src/embassy.rs:255`). Returns the updated
state and the `bool` result. The Rust guard
`timer_ticks.is_some_and(|v| v <= u32::MAX as u64)` (a `checked_mul` on
`u64`) is expressed as `timer_ticks <= u32Max` on `Nat`: a product that
overflows `u64` is in particular greater than `u32Max`, so the two
conditions agree. -/
def TimerDriver.set_alarm (s : TimerDriver) (timestamp : Nat) : TimerDriver × Bool :=
  match s.scale with
  | none => (s, false)
  | some sc =>
    let s := { s with alarm_irq_enabled := false, alarm_enabled := false }
    let s := { s with alarm_timestamp := timestamp }
    let t := s.now
    if timestamp ≤ t then
      ({ s with alarm_timestamp := u64Max }, false)
    else
      let safe_timestamp := max timestamp (t + 3)
      let timer_ticks := (safe_timestamp - t) * sc
      let s := { s with alarm_reset := u32Max }
      if timer_ticks ≤ u32Max then
        ({ s with alarm_count := timer_ticks, alarm_irq_enabled := true, alarm_enabled := true },
          true)
      else
        (s, true)

/-- Modelled from the spec: the external Deadline Queue
(`embassy_time_queue_utils::Queue`, not part of this repository).
`next_expiration(now)` wakes and removes every deadline that is not in the
future and returns the nearest remaining deadline, or the sentinel
`u64::MAX` when none is pending; the remaining deadlines stay queued. -/
def next_expiration (t : Nat) (q : List Nat) : Nat × List Nat :=
  let rest := q.filter (fun d => decide (t < d))
  (rest.foldr min u64Max, rest)

/-- The retry loop inside `TimerDriver::trigger_alarm`
(`src/embassy.rs:241`): fetch `next_expiration(now())` and call
`set_alarm` until it succeeds. The Rust loop is unbounded; the model takes
explicit fuel and `trigger_alarm` passes enough for the sequential case. -/
def TimerDriver.trigger_loop : Nat → TimerDriver → TimerDriver
  | 0, s => s
  | fuel + 1, s =>
    let r := next_expiration s.now s.queue
    let s1 := { s with queue := r.2 }
    let r2 := s1.set_alarm r.1
    if r2.2 then r2.1 else TimerDriver.trigger_loop fuel r2.1

/-- `TimerDriver::trigger_alarm` (`src/embassy.rs:229`): disable the alarm
timer and its interrupt, reset the cached timestamp to the sentinel, then
re-arm from the deadline queue. -/
def TimerDriver.trigger_alarm (s : TimerDriver) : TimerDriver :=
  let s := { s with alarm_irq_enabled := false, alarm_enabled := false }
  let s := { s with alarm_timestamp := u64Max }
  TimerDriver.trigger_loop (s.queue.length + 1) s

/-- `TimerDriver::next_period` (`src/embassy.rs:204`), the wrap-interrupt
handler. `fetch_add(1)` wraps `periods` and `t = (period as u64) << 32`.
Returns `none` where the Rust code would panic (the `SCALE.get().unwrap()`
before initialization), and otherwise the updated state together with a
flag recording whether `trigger_alarm` was invoked. As in `set_alarm`, the
`checked_mul` guard is expressed as `≤ u32Max` on `Nat`. -/
def TimerDriver.next_period (s : TimerDriver) : Option (TimerDriver × Bool) :=
  let period := s.periods + 1
  let t := period <<< 32
  let s1 := { s with periods := period }
  if s1.alarm_timestamp < t then
    some (s1.trigger_alarm, true)
  else
    match s1.scale with
    | none => none
    | some sc =>
      let remaining_ticks := (s1.alarm_timestamp - t) * sc
      if remaining_ticks ≤ u32Max then
        some ({ s1 with alarm_count := remaining_ticks,
                        alarm_irq_enabled := true, alarm_enabled := true }, false)
      else
        some (s1, false)

/-- A sample driver state used by the witnesses: initialized with
`scale = 1`, no wraps yet, timekeeper counter at its reload value
(so `now = 0`), no alarm pending. -/
def sampleDriver : TimerDriver :=
  { scale := some 1, periods := 0, tkCount := u32Max, alarm_timestamp := u64Max,
    alarm_count := 0, alarm_reset := 0, alarm_irq_enabled := false,
    alarm_enabled := false, queue := [] }

/-- Unfolding lemma: `set_alarm` on an initialized driver, all branches. -/
theorem TimerDriver.set_alarm_eq (s : TimerDriver) (sc : Nat) (hsc : s.scale = some sc)
    (ts : Nat) :
    s.set_alarm ts =
      if ts ≤ s.now then
        ({ s with alarm_irq_enabled := false, alarm_enabled := false,
                  alarm_timestamp := u64Max }, false)
      else if (max ts (s.now + 3) - s.now) * sc ≤ u32Max then
        ({ s with alarm_irq_enabled := true, alarm_enabled := true, alarm_timestamp := ts,
                  alarm_reset := u32Max, alarm_count := (max ts (s.now + 3) - s.now) * sc },
          true)
      else
        ({ s with alarm_irq_enabled := false, alarm_enabled := false, alarm_timestamp := ts,
                  alarm_reset := u32Max }, true) := by
  have hnow : TimerDriver.now { scale := some sc, periods := s.periods, tkCount := s.tkCount, alarm_timestamp := ts, alarm_count := s.alarm_count, alarm_reset := s.alarm_reset, alarm_irq_enabled := false, alarm_enabled := false, queue := s.queue } = s.now := by
    simp [TimerDriver.now, hsc]
  simp only [TimerDriver.set_alarm, hsc, hnow]

/-- C1: for every timestamp `ts`, `set_alarm ts` fails when the clock scale
is uninitialized; when `ts ≤ now()` it fails and leaves the cached alarm
timestamp at the sentinel `u64::MAX`; otherwise it succeeds having stored
`ts`, the programmed safe deadline `max(ts, now() + 3)` is never earlier
than `ts` and at most 2 ticks later, the one-shot counter is loaded with
`(safe - now()) * scale` and enabled exactly when that value fits in 32
bits, and is left disabled otherwise. -/
theorem set_alarm_spec (s : TimerDriver) (ts : Nat) :
    (s.scale = none → s.set_alarm ts = (s, false)) ∧
    (∀ sc, s.scale = some sc → ts ≤ s.now →
      (s.set_alarm ts).2 = false ∧ (s.set_alarm ts).1.alarm_timestamp = u64Max) ∧
    (∀ sc, s.scale = some sc → s.now < ts →
      (s.set_alarm ts).2 = true ∧
      (s.set_alarm ts).1.alarm_timestamp = ts ∧
      ts ≤ max ts (s.now + 3) ∧ max ts (s.now + 3) ≤ ts + 2 ∧
      ((s.set_alarm ts).1.alarm_enabled = true ↔ (max ts (s.now + 3) - s.now) * sc ≤ u32Max) ∧
      ((max ts (s.now + 3) - s.now) * sc ≤ u32Max →
        (s.set_alarm ts).1.alarm_count = (max ts (s.now + 3) - s.now) * sc) ∧
      (u32Max < (max ts (s.now + 3) - s.now) * sc →
        (s.set_alarm ts).1.alarm_enabled = false)) := by
  refine ⟨fun h => by simp [TimerDriver.set_alarm, h], ?_, ?_⟩
  · intro sc hsc hle
    rw [TimerDriver.set_alarm_eq s sc hsc ts, if_pos hle]
    exact ⟨rfl, rfl⟩
  · intro sc hsc hlt
    have hnle : ¬ ts ≤ s.now := not_le.mpr hlt
    rw [TimerDriver.set_alarm_eq s sc hsc ts, if_neg hnle]
    by_cases hfit : (max ts (s.now + 3) - s.now) * sc ≤ u32Max
    · rw [if_pos hfit]
      exact ⟨rfl, rfl, Nat.le_max_left _ _, by omega, iff_of_true rfl hfit, fun _ => rfl,
        fun h => absurd hfit (not_le.mpr h)⟩
    · rw [if_neg hfit]
      exact ⟨rfl, rfl, Nat.le_max_left _ _, by omega,
        iff_of_false (by simp) hfit, fun h => absurd h hfit, fun _ => rfl⟩

/-- Witness for `set_alarm_spec`: on `sampleDriver` (`now = 0`, scale 1),
`set_alarm 5` succeeds, stores 5, and arms the counter with 5 ticks. -/
theorem set_alarm_spec_witness :
    sampleDriver.scale = some 1 ∧ sampleDriver.now < 5 ∧
      ((sampleDriver.set_alarm 5).2 = true ∧
       (sampleDriver.set_alarm 5).1.alarm_timestamp = 5 ∧
       5 ≤ max 5 (sampleDriver.now + 3) ∧ max 5 (sampleDriver.now + 3) ≤ 5 + 2 ∧
       ((sampleDriver.set_alarm 5).1.alarm_enabled = true ↔
         (max 5 (sampleDriver.now + 3) - sampleDriver.now) * 1 ≤ u32Max) ∧
       ((max 5 (sampleDriver.now + 3) - sampleDriver.now) * 1 ≤ u32Max →
         (sampleDriver.set_alarm 5).1.alarm_count =
           (max 5 (sampleDriver.now + 3) - sampleDriver.now) * 1) ∧
       (u32Max < (max 5 (sampleDriver.now + 3) - sampleDriver.now) * 1 →
         (sampleDriver.set_alarm 5).1.alarm_enabled = false)) :=
  ⟨rfl, by decide, (set_alarm_spec sampleDriver 5).2.2 1 rfl (by decide)⟩

/-!
### `TimerDriver::now` with concurrency (`src/embassy.rs:304`)

Each iteration of the retry loop makes three reads whose results depend on
the precise interleaving with the wrap interrupt: `periods` (p1, acquire),
the inverted hardware counter, and `periods` again (p2, relaxed). One
`NowObs` records the three values one loop iteration observes; a list of
observations drives the loop, which retries until `p1 = p2`.
-/
structure NowObs where
  p1 : Nat
  counter : Nat
  p2 : Nat
deriving Repr

/-- The retry loop of `TimerDriver::now`: on the first observation with
`p1 = p2` it returns `((p1 as u64) << 32 | (u32::MAX - counter)) / scale`;
otherwise it retries with the next observation. `none` means the supplied
interleaving never let the loop exit. -/
def now_loop (sc : Nat) : List NowObs → Option Nat
  | [] => none
  | o :: rest =>
    if o.p1 = o.p2 then some (((o.p1 <<< 32) ||| (u32Max - o.counter)) / sc)
    else now_loop sc rest

/-- `TimerDriver::now` over an explicit interleaving: returns 0 when
`SCALE` has not been set, otherwise runs the retry loop. -/
def now_obs (scale : Option Nat) (obs : List NowObs) : Option Nat :=
  match scale with
  | none => some 0
  | some sc => now_loop sc obs

/-- C2: `now()` reads the wrap count `p1`, the inverted counter
`u32::MAX - counter`, and the wrap count again `p2`; when `p1 = p2` it
returns `((p1 << 32) | raw) / scale`, when `p1 ≠ p2` it retries, and when
the scale is not yet set it returns 0. -/
theorem now_double_read_spec (obs rest : List NowObs) (o : NowObs) (sc : Nat) :
    now_obs none obs = some 0 ∧
    (o.p1 = o.p2 →
      now_obs (some sc) (o :: rest) =
        some (((o.p1 <<< 32) ||| (u32Max - o.counter)) / sc)) ∧
    (o.p1 ≠ o.p2 → now_obs (some sc) (o :: rest) = now_obs (some sc) rest) := by
  refine ⟨rfl, fun h => ?_, fun h => ?_⟩
  · simp [now_obs, now_loop, h]
  · simp [now_obs, now_loop, h]

/-- Witness for `now_double_read_spec`: a consistent observation
`p1 = p2 = 1` with the counter 5 ticks below its reload value yields
`(1 <<< 32 | (u32::MAX - 5)) / 1 = 8589934586`. -/
theorem now_double_read_spec_witness :
    (NowObs.mk 1 5 1).p1 = (NowObs.mk 1 5 1).p2 ∧
      now_obs (some 1) [NowObs.mk 1 5 1] = some 8589934586 :=
  ⟨rfl, by
    have h := (now_double_read_spec [] [] (NowObs.mk 1 5 1) 1).2.1 rfl
    simpa using h⟩

/-!
### Monotonicity of `now()` under wrap interleavings (C3)

The timekeeper hardware together with `next_period` is a deterministic
step machine: while the decrementing counter is non-zero it decrements;
when it reaches zero the wrap occurs, the counter restarts from its reload
value `u32::MAX` and the wrap interrupt increments `periods` by one. A
`now()` call is three reads placed at arbitrary points of that step
sequence.
-/
structure ClockState where
  periods : Nat
  counter : Nat
deriving Repr, DecidableEq

/-- One hardware step: a wrap (counter at zero restarts from `u32::MAX`
and `periods` is incremented by one) or an ordinary decrement. -/
def hwStep (s : ClockState) : ClockState :=
  if s.counter = 0 then { periods := s.periods + 1, counter := u32Max }
  else { periods := s.periods, counter := s.counter - 1 }

/-- The machine state after `n` hardware steps. -/
def stateAt (s0 : ClockState) (n : Nat) : ClockState :=
  hwStep^[n] s0

/-- The raw 64-bit tick combination `(periods << 32) | inverted_counter`
as a plain number. -/
def clockVal (s : ClockState) : Nat :=
  s.periods * 2 ^ 32 + (u32Max - s.counter)

/-- The value a `now()` call returns when its `p1` read happens after `i`
steps and its counter read after `j` steps (the call is consistent when
`p2`, read after `k` steps, equals `p1`). Mirrors the combination in
`TimerDriver::now`. -/
def readVal (sc : Nat) (s0 : ClockState) (i j : Nat) : Nat :=
  (((stateAt s0 i).periods <<< 32) ||| (u32Max - (stateAt s0 j).counter)) / sc

/-- Shifting a number past 32 bits and or-ing in a low word below `2^32`
is plain positional arithmetic. -/
theorem shiftLeft_or_low (p v : Nat) (hv : v < 2 ^ 32) :
    (p <<< 32) ||| v = p * 2 ^ 32 + v := by
  rw [Nat.shiftLeft_eq, Nat.mul_comm, ← Nat.mul_add_lt_is_or hv, Nat.mul_comm]

/-- The counter bound is an invariant of the step machine. -/
theorem hwStep_counter_le (s : ClockState) (h : s.counter ≤ u32Max) :
    (hwStep s).counter ≤ u32Max := by
  unfold hwStep
  split
  · simp
  · simp only
    omega

/-- Each hardware step increases the raw tick combination by exactly 1. -/
theorem clockVal_hwStep (s : ClockState) (h : s.counter ≤ u32Max) :
    clockVal (hwStep s) = clockVal s + 1 := by
  have hpow : (2 : Nat) ^ 32 = 4294967296 := by norm_num
  have hu : u32Max = 4294967295 := rfl
  unfold hwStep clockVal
  rcases Nat.eq_zero_or_pos s.counter with h0 | h0
  · rw [if_pos h0, h0]
    simp only [hpow, hu] at h ⊢
    omega
  · rw [if_neg (Nat.pos_iff_ne_zero.mp h0)]
    simp only [hpow, hu] at h ⊢
    omega

theorem stateAt_succ (s0 : ClockState) (n : Nat) :
    stateAt s0 (n + 1) = hwStep (stateAt s0 n) := by
  rw [stateAt, stateAt, Function.iterate_succ_apply']

theorem stateAt_counter_le (s0 : ClockState) (h : s0.counter ≤ u32Max) (n : Nat) :
    (stateAt s0 n).counter ≤ u32Max := by
  induction n with
  | zero => exact h
  | succ n ih =>
    rw [stateAt_succ]
    exact hwStep_counter_le _ ih

/-- After `n` steps the raw tick combination has advanced by exactly `n`. -/
theorem clockVal_stateAt (s0 : ClockState) (h : s0.counter ≤ u32Max) (n : Nat) :
    clockVal (stateAt s0 n) = clockVal s0 + n := by
  induction n with
  | zero => simp [stateAt]
  | succ n ih =>
    rw [stateAt_succ, clockVal_hwStep _ (stateAt_counter_le s0 h n)]
    omega

/-- `periods` is the high word of the raw tick combination. -/
theorem periods_eq_clockVal_div (s : ClockState) (h : s.counter ≤ u32Max) :
    s.periods = clockVal s / 2 ^ 32 := by
  unfold clockVal
  have : u32Max - s.counter < 2 ^ 32 := by
    have := u32Max_eq
    omega
  omega

/-- `periods` never decreases along the step sequence. -/
theorem periods_mono (s0 : ClockState) (h : s0.counter ≤ u32Max) {m n : Nat} (hmn : m ≤ n) :
    (stateAt s0 m).periods ≤ (stateAt s0 n).periods := by
  rw [periods_eq_clockVal_div _ (stateAt_counter_le s0 h m),
    periods_eq_clockVal_div _ (stateAt_counter_le s0 h n),
    clockVal_stateAt s0 h m, clockVal_stateAt s0 h n]
  exact Nat.div_le_div_right (by omega)

/-- A consistent double read pins the period over the whole read window,
so the value a `now()` call combines is the raw tick combination at the
instant of its counter read. -/
theorem readVal_eq_clockVal (sc : Nat) (s0 : ClockState) (h : s0.counter ≤ u32Max)
    {i j k : Nat} (hij : i ≤ j) (hjk : j ≤ k)
    (hper : (stateAt s0 i).periods = (stateAt s0 k).periods) :
    readVal sc s0 i j = clockVal (stateAt s0 j) / sc := by
  have hmidl := periods_mono s0 h hij
  have hmidr := periods_mono s0 h hjk
  have hpj : (stateAt s0 i).periods = (stateAt s0 j).periods := by omega
  have hcnt : u32Max - (stateAt s0 j).counter < 2 ^ 32 := by
    have := u32Max_eq
    omega
  rw [readVal, shiftLeft_or_low _ _ hcnt, hpj]
  rfl

/-- C3: for every interleaving of `now()` calls with hardware/wrap steps,
the values returned by consecutive consistent `now()` calls are
non-decreasing: if one call's three reads happen at steps
`i1 ≤ j1 ≤ k1` with matching period reads, and a later call's reads at
steps `i2 ≤ j2 ≤ k2` (with `k1 ≤ i2`) also match, then the first value is
at most the second. This covers wraps landing anywhere, including between
the two period reads of one call (such a call retries, and the attempt
that returns is the one whose reads are consistent). -/
theorem now_monotonic (s0 : ClockState) (h : s0.counter ≤ u32Max) (sc : Nat)
    (i1 j1 k1 i2 j2 k2 : Nat)
    (h11 : i1 ≤ j1) (h12 : j1 ≤ k1) (hmid : k1 ≤ i2) (h21 : i2 ≤ j2) (h22 : j2 ≤ k2)
    (hp1 : (stateAt s0 i1).periods = (stateAt s0 k1).periods)
    (hp2 : (stateAt s0 i2).periods = (stateAt s0 k2).periods) :
    readVal sc s0 i1 j1 ≤ readVal sc s0 i2 j2 := by
  rw [readVal_eq_clockVal sc s0 h h11 h12 hp1, readVal_eq_clockVal sc s0 h h21 h22 hp2]
  refine Nat.div_le_div_right ?_
  rw [clockVal_stateAt s0 h j1, clockVal_stateAt s0 h j2]
  omega

/-- Witness for `now_monotonic`: starting one tick before a wrap, a read
completed before the wrap (steps 0,0,0) yields a value no larger than a
read completed just after the wrap (steps 2,2,2). -/
theorem now_monotonic_witness :
    (ClockState.mk 0 1).counter ≤ u32Max ∧
      stateAt (ClockState.mk 0 1) 0 = ClockState.mk 0 1 ∧
      stateAt (ClockState.mk 0 1) 2 = ClockState.mk 1 u32Max ∧
      readVal 1 (ClockState.mk 0 1) 0 0 ≤ readVal 1 (ClockState.mk 0 1) 2 2 :=
  ⟨by decide, by decide, by decide,
    now_monotonic (ClockState.mk 0 1) (by decide) 1 0 0 0 2 2 2
      (by decide) (by decide) (by decide) (by decide) (by decide) (by decide) (by decide)⟩

/-- `set_alarm` never touches the wrap counter. -/
theorem TimerDriver.set_alarm_periods (s : TimerDriver) (ts : Nat) :
    ((s.set_alarm ts).1).periods = s.periods := by
  unfold TimerDriver.set_alarm
  cases s.scale
  · rfl
  · simp only
    split
    · rfl
    · split
      · rfl
      · rfl

/-- The `trigger_alarm` retry loop never touches the wrap counter. -/
theorem TimerDriver.trigger_loop_periods (fuel : Nat) :
    ∀ s : TimerDriver, (TimerDriver.trigger_loop fuel s).periods = s.periods := by
  induction fuel with
  | zero => intro s; rfl
  | succ fuel ih =>
    intro s
    unfold TimerDriver.trigger_loop
    simp only
    split
    · exact TimerDriver.set_alarm_periods _ _
    · rw [ih]
      exact TimerDriver.set_alarm_periods _ _

/-- `trigger_alarm` never touches the wrap counter. -/
theorem TimerDriver.trigger_alarm_periods (s : TimerDriver) :
    (s.trigger_alarm).periods = s.periods := by
  unfold TimerDriver.trigger_alarm
  simp only
  rw [TimerDriver.trigger_loop_periods]

/-- Unfolding lemma: `next_period` on an initialized driver, all branches. -/
theorem TimerDriver.next_period_eq (s : TimerDriver) (sc : Nat) (hsc : s.scale = some sc) :
    s.next_period =
      if s.alarm_timestamp < (s.periods + 1) <<< 32 then
        some (TimerDriver.trigger_alarm { s with periods := s.periods + 1 }, true)
      else if (s.alarm_timestamp - ((s.periods + 1) <<< 32)) * sc ≤ u32Max then
        some ({ s with periods := s.periods + 1,
                       alarm_count := (s.alarm_timestamp - ((s.periods + 1) <<< 32)) * sc,
                       alarm_irq_enabled := true, alarm_enabled := true }, false)
      else
        some ({ s with periods := s.periods + 1 }, false) := by
  simp only [TimerDriver.next_period, hsc]

/-- A driver state whose pending deadline lies 5 ticks into the next
period, with a recognizable value (42) left in the alarm timer's reload
register. -/
def sampleReprogram : TimerDriver :=
  { scale := some 1, periods := 0, tkCount := u32Max, alarm_timestamp := 2 ^ 32 + 5,
    alarm_count := 0, alarm_reset := 42, alarm_irq_enabled := false,
    alarm_enabled := false, queue := [] }

/-- C4 counterexample: the claim says the wrap handler reprograms the
one-shot counter's *reload and count* with the remaining delta. On a state
whose deadline is 5 ticks past the new period's base, `next_period` writes
5 into the count register but leaves the reload register at its old value
42: only the count register is reprogrammed. -/
theorem next_period_reload_counterexample :
    (sampleReprogram.next_period).map (fun r => (r.1.alarm_reset, r.1.alarm_count)) =
        some (42, 5) ∧
      (42 : Nat) ≠ 5 :=
  ⟨by decide, by decide⟩

/-- C4 (amended): on each wrap interrupt `next_period` increments
`periods` by exactly one; with `t = period << 32`, if the cached alarm
timestamp is already `< t` the alarm is triggered immediately; otherwise,
if the remaining delta `(timestamp - t) * scale` fits in 32 bits, the
one-shot counter's *count* register is loaded with it and the counter and
its interrupt are re-enabled (the reload register is not modified by
`next_period`), and if it does not fit the alarm timer registers are left
unchanged (in particular a disabled counter stays disabled). -/
theorem next_period_spec (s : TimerDriver) (sc : Nat) (hsc : s.scale = some sc) :
    ∃ s2 fired, s.next_period = some (s2, fired) ∧
      s2.periods = s.periods + 1 ∧
      (s.alarm_timestamp < (s.periods + 1) <<< 32 → fired = true) ∧
      ((s.periods + 1) <<< 32 ≤ s.alarm_timestamp →
        fired = false ∧
        ((s.alarm_timestamp - ((s.periods + 1) <<< 32)) * sc ≤ u32Max →
          s2.alarm_count = (s.alarm_timestamp - ((s.periods + 1) <<< 32)) * sc ∧
          s2.alarm_enabled = true ∧ s2.alarm_irq_enabled = true ∧
          s2.alarm_reset = s.alarm_reset) ∧
        (u32Max < (s.alarm_timestamp - ((s.periods + 1) <<< 32)) * sc →
          s2.alarm_enabled = s.alarm_enabled ∧ s2.alarm_irq_enabled = s.alarm_irq_enabled ∧
          s2.alarm_count = s.alarm_count ∧ s2.alarm_reset = s.alarm_reset)) := by
  by_cases hat : s.alarm_timestamp < (s.periods + 1) <<< 32
  · refine ⟨TimerDriver.trigger_alarm { s with periods := s.periods + 1 }, true,
      by rw [TimerDriver.next_period_eq s sc hsc, if_pos hat], ?_, fun _ => rfl,
      fun hge => absurd hat (not_lt.mpr hge)⟩
    rw [TimerDriver.trigger_alarm_periods]
  · by_cases hfit : (s.alarm_timestamp - ((s.periods + 1) <<< 32)) * sc ≤ u32Max
    · exact ⟨{ s with periods := s.periods + 1, alarm_count := (s.alarm_timestamp - ((s.periods + 1) <<< 32)) * sc, alarm_irq_enabled := true, alarm_enabled := true }, false,
        by rw [TimerDriver.next_period_eq s sc hsc, if_neg hat, if_pos hfit], rfl,
        fun h => absurd h hat,
        fun _ => ⟨rfl, fun _ => ⟨rfl, rfl, rfl, rfl⟩, fun h => absurd hfit (not_le.mpr h)⟩⟩
    · exact ⟨{ s with periods := s.periods + 1 }, false,
        by rw [TimerDriver.next_period_eq s sc hsc, if_neg hat, if_neg hfit], rfl,
        fun h => absurd h hat,
        fun _ => ⟨rfl, fun h => absurd h hfit, fun _ => ⟨rfl, rfl, rfl, rfl⟩⟩⟩

/-- Witness for `next_period_spec` on `sampleReprogram`. -/
theorem next_period_spec_witness :
    sampleReprogram.scale = some 1 ∧
      (∃ s2 fired, sampleReprogram.next_period = some (s2, fired) ∧
        s2.periods = sampleReprogram.periods + 1 ∧
        (sampleReprogram.alarm_timestamp < (sampleReprogram.periods + 1) <<< 32 →
          fired = true) ∧
        ((sampleReprogram.periods + 1) <<< 32 ≤ sampleReprogram.alarm_timestamp →
          fired = false ∧
          ((sampleReprogram.alarm_timestamp - ((sampleReprogram.periods + 1) <<< 32)) * 1 ≤
              u32Max →
            s2.alarm_count =
              (sampleReprogram.alarm_timestamp - ((sampleReprogram.periods + 1) <<< 32)) * 1 ∧
            s2.alarm_enabled = true ∧ s2.alarm_irq_enabled = true ∧
            s2.alarm_reset = sampleReprogram.alarm_reset) ∧
          (u32Max <
              (sampleReprogram.alarm_timestamp - ((sampleReprogram.periods + 1) <<< 32)) * 1 →
            s2.alarm_enabled = sampleReprogram.alarm_enabled ∧
            s2.alarm_irq_enabled = sampleReprogram.alarm_irq_enabled ∧
            s2.alarm_count = sampleReprogram.alarm_count ∧
            s2.alarm_reset = sampleReprogram.alarm_reset))) :=
  ⟨rfl, next_period_spec sampleReprogram 1 rfl⟩

/-!
### Port interrupt dispatcher (`src/gpio/asynch.rs:121`, C5 and C6)

`on_interrupt_for_port` scans a working copy of the enabled-interrupt
bitmap: wake the slot of the lowest set bit, and clear that bit from the
working copy only when the edge-status bitmap confirms it. The state below
is the loop variable `irq_enb` together with the per-pin
`edge_detection` flags and a count of `wake()` calls per slot; one
`on_interrupt_for_port_step` is one iteration of the `while` loop.
-/
structure PortIrqState where
  irq_enb : Nat
  edge_detection : Nat → Bool
  wakes : Nat → Nat

/-- `u32::trailing_zeros`, by scanning bits upward: the index of the
lowest set bit of a `u32`, or 32 when the value is zero. -/
def lowestSetBitFrom (n : Nat) : Nat → Nat → Nat
  | 0, i => i
  | fuel + 1, i => if n.testBit i then i else lowestSetBitFrom n fuel (i + 1)

/-- `u32::trailing_zeros`. -/
def trailing_zeros (n : Nat) : Nat := lowestSetBitFrom n 32 0

/-- One iteration of the dispatch loop: `bit_pos` is the trailing-zero
count of the working bitmap, the pin's waker is woken unconditionally, and
when the edge-status bit for `bit_pos` is set the sticky flag is stored
and the bit cleared (`irq_enb &= !bit_mask` on `u32`, i.e. and-ing with
`u32Max ^^^ bit_mask`). When the working bitmap is zero the loop has
exited and the state is final. -/
def on_interrupt_for_port_step (edge_status : Nat) (st : PortIrqState) : PortIrqState :=
  if st.irq_enb = 0 then st
  else
    let bit_pos := trailing_zeros st.irq_enb
    let bit_mask := 1 <<< bit_pos
    let st1 : PortIrqState :=
      { st with wakes := fun q => if q = bit_pos then st.wakes q + 1 else st.wakes q }
    if edge_status &&& bit_mask ≠ 0 then
      { st1 with
        edge_detection := fun q => if q = bit_pos then true else st1.edge_detection q,
        irq_enb := st1.irq_enb &&& (u32Max ^^^ bit_mask) }
    else st1

/-- Entry state of the dispatch loop: the enabled-interrupt bitmap as
read from the hardware, no sticky flags set, no wakes performed. -/
def initPortState (irq_enb : Nat) : PortIrqState :=
  { irq_enb := irq_enb, edge_detection := fun _ => false, wakes := fun _ => 0 }

/-- The dispatch loop terminates on the bitmap pair: some number of
iterations empties the working bitmap. -/
def dispatchTerminates (irq_enb edge_status : Nat) : Prop :=
  ∃ n, ((on_interrupt_for_port_step edge_status)^[n] (initPortState irq_enb)).irq_enb = 0

/-- `lowestSetBitFrom` finds a set bit if one exists in its scan range. -/
theorem lowestSetBitFrom_testBit (n : Nat) :
    ∀ fuel i, (∃ j, j < fuel ∧ n.testBit (i + j) = true) →
      n.testBit (lowestSetBitFrom n fuel i) = true := by
  intro fuel
  induction fuel with
  | zero =>
    rintro i ⟨j, hj, _⟩
    omega
  | succ fuel ih =>
    rintro i ⟨j, hj, hbit⟩
    unfold lowestSetBitFrom
    by_cases hi : n.testBit i
    · rw [if_pos hi]
      exact hi
    · rw [if_neg hi]
      apply ih
      rcases j with _ | j
      · simp at hbit
        exact absurd hbit hi
      · exact ⟨j, by omega, by rw [show i + 1 + j = i + (j + 1) by omega]; exact hbit⟩

/-- A nonzero number has a set bit. -/
theorem exists_testBit_of_ne_zero (n : Nat) (h : n ≠ 0) :
    ∃ j, n.testBit j = true := by
  by_contra hall
  push_neg at hall
  exact h (Nat.zero_of_testBit_eq_false fun i => by
    have := hall i
    simpa using this)

/-- A set bit of a number below `2^32` sits below position 32. -/
theorem testBit_lt_32 (n j : Nat) (hn : n < 2 ^ 32) (hj : n.testBit j = true) : j < 32 := by
  by_contra hge
  rw [Nat.testBit_lt_two_pow (lt_of_lt_of_le hn (Nat.pow_le_pow_right (by norm_num) (by omega)))] at hj
  exact Bool.false_ne_true hj

/-- The trailing-zero count of a nonzero `u32` indexes a set bit. -/
theorem trailing_zeros_testBit (n : Nat) (h0 : n ≠ 0) (hn : n < 2 ^ 32) :
    n.testBit (trailing_zeros n) = true := by
  obtain ⟨j, hj⟩ := exists_testBit_of_ne_zero n h0
  exact lowestSetBitFrom_testBit n 32 0 ⟨j, testBit_lt_32 n j hn hj, by simpa using hj⟩

/-- The trailing-zero count of a nonzero `u32` is below 32. -/
theorem trailing_zeros_lt_32 (n : Nat) (h0 : n ≠ 0) (hn : n < 2 ^ 32) :
    trailing_zeros n < 32 :=
  testBit_lt_32 n _ hn (trailing_zeros_testBit n h0 hn)

theorem lowestSetBitFrom_two_pow (p : Nat) :
    ∀ fuel i, i ≤ p → p < i + fuel → lowestSetBitFrom (2 ^ p) fuel i = p := by
  intro fuel
  induction fuel with
  | zero => intro i h1 h2; omega
  | succ fuel ih =>
    intro i h1 h2
    unfold lowestSetBitFrom
    by_cases hi : (2 ^ p).testBit i
    · rw [if_pos hi]
      rw [Nat.testBit_two_pow] at hi
      exact (of_decide_eq_true hi).symm
    · rw [if_neg hi]
      rw [Nat.testBit_two_pow] at hi
      have : p ≠ i := by
        intro hpi
        exact hi (by simp [hpi])
      exact ih (i + 1) (by omega) (by omega)

/-- `trailing_zeros (2^p) = p` for an in-range bit position. -/
theorem trailing_zeros_two_pow (p : Nat) (hp : p < 32) : trailing_zeros (2 ^ p) = p :=
  lowestSetBitFrom_two_pow p 32 0 (by omega) (by omega)

/-- Bitwise characterization of the working-copy clear
`e &&& (u32Max ^^^ (1 <<< pos))`: for a `u32` value it keeps every bit of
`e` except the one at `pos`. -/
theorem testBit_clear_bit (e pos j : Nat) (he : e < 2 ^ 32) (hpos : pos < 32) :
    (e &&& (u32Max ^^^ (1 <<< pos))).testBit j = (e.testBit j && !decide (j = pos)) := by
  rw [Nat.testBit_and, Nat.testBit_xor, Nat.shiftLeft_eq, one_mul, u32Max_eq,
    Nat.testBit_two_pow_sub_one, Nat.testBit_two_pow]
  by_cases hjp : j = pos
  · subst hjp
    simp [hpos]
  · by_cases hj : j < 32
    · have hpj : ¬ pos = j := fun h => hjp h.symm
      simp [hj, hjp, hpj]
    · have hb : e.testBit j = false :=
        Nat.testBit_lt_two_pow (lt_of_lt_of_le he (Nat.pow_le_pow_right (by norm_num) (by omega)))
      simp [hb]

/-- A dispatch step where the loop is still running and the edge-status
bit for the lowest enabled bit is set: the waker slot at `bit_pos` is
bumped, the sticky flag at `bit_pos` is set, and `bit_pos` is cleared from
the working bitmap. -/
theorem on_interrupt_for_port_step_clear (s : Nat) (st : PortIrqState)
    (h0 : st.irq_enb ≠ 0) (hm : s &&& (1 <<< trailing_zeros st.irq_enb) ≠ 0) :
    on_interrupt_for_port_step s st =
      { irq_enb := st.irq_enb &&& (u32Max ^^^ (1 <<< trailing_zeros st.irq_enb)),
        edge_detection := fun q => if q = trailing_zeros st.irq_enb then true
          else st.edge_detection q,
        wakes := fun q => if q = trailing_zeros st.irq_enb then st.wakes q + 1
          else st.wakes q } := by
  unfold on_interrupt_for_port_step
  rw [if_neg h0, if_pos hm]

/-- A dispatch step where the edge-status bit for the lowest enabled bit
is clear: the waker slot is still bumped but the working bitmap and the
sticky flags are unchanged. -/
theorem on_interrupt_for_port_step_keep (s : Nat) (st : PortIrqState)
    (h0 : st.irq_enb ≠ 0) (hm : ¬ s &&& (1 <<< trailing_zeros st.irq_enb) ≠ 0) :
    on_interrupt_for_port_step s st =
      { st with wakes := fun q => if q = trailing_zeros st.irq_enb then st.wakes q + 1
          else st.wakes q } := by
  unfold on_interrupt_for_port_step
  rw [if_neg h0, if_neg hm]

/-- With the working bitmap empty the loop has exited: a step is the
identity. -/
theorem on_interrupt_for_port_step_done (s : Nat) (st : PortIrqState)
    (h0 : st.irq_enb = 0) : on_interrupt_for_port_step s st = st := by
  unfold on_interrupt_for_port_step
  rw [if_pos h0]

/-- C5 counterexample: the dispatch loop is *not* a total function of the
two bitmaps. With pin 0 enabled (`irq_enb = 1`) but no edge-status bit
(`edge_status = 0`) the lowest set bit is never confirmed, so it is never
cleared from the working copy and the loop re-processes it forever. -/
theorem dispatch_nontermination : ¬ dispatchTerminates 1 0 := by
  have key : ∀ st : PortIrqState, st.irq_enb = 1 →
      (on_interrupt_for_port_step 0 st).irq_enb = 1 := by
    intro st h
    rw [on_interrupt_for_port_step_keep 0 st (by rw [h]; exact one_ne_zero)
      (by simp)]
    exact h
  have inv : ∀ n, ((on_interrupt_for_port_step 0)^[n] (initPortState 1)).irq_enb = 1 := by
    intro n
    induction n with
    | zero => rfl
    | succ n ih =>
      rw [Function.iterate_succ_apply']
      exact key _ ih
  rintro ⟨n, hn⟩
  rw [inv n] at hn
  exact one_ne_zero hn

/-- From `e &&& s = e`, every set bit of `e` is set in `s`. -/
theorem testBit_of_and_eq (e s j : Nat) (hsub : e &&& s = e) (hj : e.testBit j = true) :
    s.testBit j = true := by
  have h := congrArg (fun m => Nat.testBit m j) hsub
  simp only [Nat.testBit_and, hj, Bool.true_and] at h
  exact h

/-- Termination half of the amended C5: when every enabled bit is
confirmed by the edge-status bitmap, each iteration clears the lowest
remaining bit, so the loop empties the working bitmap. -/
theorem dispatch_terminates_of_subset (s : Nat) :
    ∀ e, e < 2 ^ 32 → e &&& s = e → ∀ st : PortIrqState, st.irq_enb = e →
      ∃ n, ((on_interrupt_for_port_step s)^[n] st).irq_enb = 0 := by
  intro e
  induction e using Nat.strong_induction_on with
  | _ e ih =>
    intro he hsub st hst
    by_cases h0 : e = 0
    · exact ⟨0, by rw [Function.iterate_zero_apply, hst, h0]⟩
    · have hbit : e.testBit (trailing_zeros e) = true := trailing_zeros_testBit e h0 he
      have hpos32 : trailing_zeros e < 32 := trailing_zeros_lt_32 e h0 he
      have hsbit : s.testBit (trailing_zeros e) = true := testBit_of_and_eq e s _ hsub hbit
      have hmask : s &&& (1 <<< trailing_zeros e) ≠ 0 := by
        rw [Nat.shiftLeft_eq, one_mul, Nat.and_two_pow, hsbit]
        simp [Nat.pos_iff_ne_zero]
      have hstep := on_interrupt_for_port_step_clear s st (by rw [hst]; exact h0)
        (by rw [hst]; exact hmask)
      rw [hst] at hstep
      set e2 := e &&& (u32Max ^^^ (1 <<< trailing_zeros e)) with he2
      have hbits : ∀ j, e2.testBit j = (e.testBit j && !decide (j = trailing_zeros e)) :=
        fun j => testBit_clear_bit e (trailing_zeros e) j he hpos32
      have he2lt : e2 < e := by
        refine Nat.lt_of_testBit (trailing_zeros e) ?_ hbit ?_
        · rw [hbits]
          simp
        · intro j hj
          rw [hbits]
          have : ¬ j = trailing_zeros e := by omega
          simp [this]
      have he2sub : e2 &&& s = e2 := by
        apply Nat.eq_of_testBit_eq
        intro j
        rw [Nat.testBit_and, hbits]
        by_cases hjp : j = trailing_zeros e
        · simp [hjp]
        · simp only [hjp, decide_False, Bool.not_false, Bool.and_true]
          cases hej : e.testBit j
          · simp
          · simp [testBit_of_and_eq e s j hsub hej]
      obtain ⟨n, hn⟩ := ih e2 he2lt (lt_trans he2lt he) he2sub
        (on_interrupt_for_port_step s st) (by rw [hstep])
      exact ⟨n + 1, by rwa [Function.iterate_succ_apply]⟩

/-- Non-termination half of the amended C5: a set enabled bit that the
edge-status bitmap never confirms is never cleared, so the working bitmap
never empties. -/
theorem dispatch_stuck_of_not_subset (s : Nat) :
    ∀ n, ∀ st : PortIrqState, st.irq_enb < 2 ^ 32 →
      (∃ j, st.irq_enb.testBit j = true ∧ s.testBit j = false) →
      ((on_interrupt_for_port_step s)^[n] st).irq_enb ≠ 0 := by
  intro n
  induction n with
  | zero =>
    rintro st hlt ⟨j, hj, -⟩ h0
    rw [Function.iterate_zero_apply] at h0
    rw [h0] at hj
    simp [Nat.zero_testBit] at hj
  | succ n ihn =>
    rintro st hlt ⟨j, hj, hsj⟩
    rw [Function.iterate_succ_apply]
    have h0 : st.irq_enb ≠ 0 := by
      intro h
      rw [h] at hj
      simp [Nat.zero_testBit] at hj
    by_cases hm : s &&& (1 <<< trailing_zeros st.irq_enb) ≠ 0
    · rw [on_interrupt_for_port_step_clear s st h0 hm]
      have hpos32 : trailing_zeros st.irq_enb < 32 := trailing_zeros_lt_32 _ h0 hlt
      have hbits : ∀ i, (st.irq_enb &&& (u32Max ^^^ (1 <<< trailing_zeros st.irq_enb))).testBit i
          = (st.irq_enb.testBit i && !decide (i = trailing_zeros st.irq_enb)) :=
        fun i => testBit_clear_bit st.irq_enb (trailing_zeros st.irq_enb) i hlt hpos32
      apply ihn
      · simp only
        calc st.irq_enb &&& (u32Max ^^^ (1 <<< trailing_zeros st.irq_enb))
            ≤ st.irq_enb := Nat.le_of_testBit fun i hi => by
              rw [hbits] at hi
              exact (Bool.and_elim_left hi)
          _ < 2 ^ 32 := hlt
      · refine ⟨j, ?_, hsj⟩
        simp only
        rw [hbits]
        have hjp : ¬ j = trailing_zeros st.irq_enb := by
          intro heq
          have : s.testBit (trailing_zeros st.irq_enb) = true := by
            rw [Nat.shiftLeft_eq, one_mul, Nat.and_two_pow] at hm
            rcases hb : s.testBit (trailing_zeros st.irq_enb)
            · rw [hb] at hm
              simp at hm
            · rfl
          rw [← heq, hsj] at this
          exact Bool.false_ne_true this
        simp [hj, hjp]
    · rw [on_interrupt_for_port_step_keep s st h0 hm]
      exact ihn _ (by simpa using hlt) ⟨j, by simpa using hj, hsj⟩

/-- C5 (amended): for `u32` bitmaps, the bit-scanning dispatch loop of
`on_interrupt_for_port` terminates exactly when every set bit of the
enabled-interrupt bitmap is also set in the edge-status bitmap
(`irq_enb &&& edge_status = irq_enb`); when some enabled bit is not
confirmed by edge-status the loop revisits it forever. -/
theorem dispatch_terminates_iff (e s : Nat) (he : e < 2 ^ 32) :
    dispatchTerminates e s ↔ e &&& s = e := by
  constructor
  · rintro ⟨n, hn⟩
    by_contra hne
    have hwit : ∃ j, e.testBit j = true ∧ s.testBit j = false := by
      by_contra hall
      push_neg at hall
      apply hne
      apply Nat.eq_of_testBit_eq
      intro j
      rw [Nat.testBit_and]
      cases hej : e.testBit j
      · simp
      · have := hall j hej
        simp only [Bool.true_and]
        cases hsj : s.testBit j
        · exact absurd hsj this
        · rfl
    exact dispatch_stuck_of_not_subset s n (initPortState e) he hwit hn
  · intro hsub
    exact dispatch_terminates_of_subset s e he hsub (initPortState e) rfl

/-- Witness for `dispatch_terminates_iff`: both bitmaps `0b101`, in range;
the loop terminates (and conversely the subset condition holds). -/
theorem dispatch_terminates_iff_witness :
    (5 : Nat) < 2 ^ 32 ∧ (5 : Nat) &&& 5 = 5 ∧ dispatchTerminates 5 5 :=
  ⟨by decide, by decide, (dispatch_terminates_iff 5 5 (by decide)).mpr (by decide)⟩

/-- Once the working bitmap is empty the dispatch state is final. -/
theorem dispatch_iterate_done (s : Nat) (st : PortIrqState) (h0 : st.irq_enb = 0) :
    ∀ n, (on_interrupt_for_port_step s)^[n] st = st := by
  intro n
  induction n with
  | zero => rfl
  | succ n ih =>
    rw [Function.iterate_succ_apply', ih, on_interrupt_for_port_step_done s st h0]

/-- C6: for a pin `P`, running the dispatcher with `P`'s bit set only in
the edge-status bitmap (enabled bitmap empty) leaves every sticky flag
false and performs no wake at any point of the run; running it with `P`'s
bit set in both bitmaps terminates after one iteration with `P`'s sticky
flag true and exactly one wake, delivered to `P`'s slot only. -/
theorem dispatch_single_pin_spec (P : Nat) (hP : P < 32) :
    (∀ n, (on_interrupt_for_port_step (1 <<< P))^[n] (initPortState 0) = initPortState 0) ∧
    (initPortState 0).edge_detection P = false ∧
    (initPortState 0).wakes P = 0 ∧
    ((on_interrupt_for_port_step (1 <<< P))^[1] (initPortState (1 <<< P))).irq_enb = 0 ∧
    (∀ q, ((on_interrupt_for_port_step (1 <<< P))^[1]
      (initPortState (1 <<< P))).edge_detection q = decide (q = P)) ∧
    (∀ q, ((on_interrupt_for_port_step (1 <<< P))^[1]
      (initPortState (1 <<< P))).wakes q = if q = P then 1 else 0) ∧
    (∀ n, (on_interrupt_for_port_step (1 <<< P))^[n + 1] (initPortState (1 <<< P)) =
      (on_interrupt_for_port_step (1 <<< P))^[1] (initPortState (1 <<< P))) := by
  have hpow : (1 : Nat) <<< P = 2 ^ P := by rw [Nat.shiftLeft_eq, one_mul]
  have hne : (1 : Nat) <<< P ≠ 0 := by
    rw [hpow]
    exact (Nat.two_pow_pos P).ne'
  have hlt32 : (1 : Nat) <<< P < 2 ^ 32 := by
    rw [hpow]
    exact Nat.pow_lt_pow_right (by norm_num) hP
  have htz : trailing_zeros (1 <<< P) = P := by
    rw [hpow]
    exact trailing_zeros_two_pow P hP
  have hmask : (1 : Nat) <<< P &&& (1 <<< trailing_zeros ((initPortState (1 <<< P)).irq_enb)) ≠ 0 := by
    show (1 : Nat) <<< P &&& (1 <<< trailing_zeros (1 <<< P)) ≠ 0
    rw [htz, hpow, Nat.and_self]
    exact (Nat.two_pow_pos P).ne'
  have hstep := on_interrupt_for_port_step_clear (1 <<< P) (initPortState (1 <<< P)) hne hmask
  have hirq0 : (1 : Nat) <<< P &&& (u32Max ^^^ (1 <<< P)) = 0 := by
    apply Nat.eq_of_testBit_eq
    intro j
    rw [Nat.zero_testBit, testBit_clear_bit _ P j hlt32 hP]
    by_cases hj : j = P
    · simp [hj]
    · rw [hpow, Nat.testBit_two_pow_of_ne (fun h => hj h.symm)]
      simp
  refine ⟨fun n => dispatch_iterate_done _ _ rfl n, rfl, rfl, ?_, ?_, ?_, ?_⟩
  · rw [Function.iterate_one, hstep]
    simpa [htz, initPortState] using hirq0
  · intro q
    rw [Function.iterate_one, hstep]
    by_cases hq : q = P <;> simp [hq, htz, initPortState]
  · intro q
    rw [Function.iterate_one, hstep]
    by_cases hq : q = P <;> simp [hq, htz, initPortState]
  · intro n
    rw [Function.iterate_succ_apply, Function.iterate_one]
    apply dispatch_iterate_done
    rw [hstep]
    simpa [htz, initPortState] using hirq0

/-- Witness for `dispatch_single_pin_spec` at pin 3: the sticky flag of
pin 3 is set and pin 5's slot is not woken. -/
theorem dispatch_single_pin_spec_witness :
    (3 : Nat) < 32 ∧
      ((on_interrupt_for_port_step (1 <<< 3))^[1]
        (initPortState (1 <<< 3))).edge_detection 3 = true ∧
      ((on_interrupt_for_port_step (1 <<< 3))^[1]
        (initPortState (1 <<< 3))).wakes 5 = 0 :=
  ⟨by decide, by
    have h := (dispatch_single_pin_spec 3 (by decide)).2.2.2.2.1 3
    simpa using h, by
    have h := (dispatch_single_pin_spec 3 (by decide)).2.2.2.2.2.1 5
    simpa using h⟩

/-!
### GPIO wait-handle construction (`src/gpio/asynch.rs:154`, C7)

`InputPinFuture::new_with_input_pin` exists in a vor1x and a vor4x
variant. The state below is the pin's slot in the static
`edge_detection` array together with the pin's hardware interrupt
configuration (edge sensitivity and interrupt-enable bit).
-/
inductive InterruptEdge where
  | HighToLow
  | LowToHigh
  | BothEdges
deriving Repr, DecidableEq

structure PinWaitState where
  edge_detected : Bool
  edge_cfg : Option InterruptEdge
  irq_pin_enabled : Bool
deriving Repr, DecidableEq

/-- vor1x `InputPinFuture::new_with_input_pin`
(`src/gpio/asynch.rs:156`): store `false` into the pin's
`edge_detection` slot, then `configure_edge_interrupt(edge)`, then
`enable_interrupt`. -/
def new_with_input_pin_vor1x (edge : InterruptEdge) (s : PinWaitState) : PinWaitState :=
  let s := { s with edge_detected := false }
  let s := { s with edge_cfg := some edge }
  { s with irq_pin_enabled := true }

/-- vor4x `InputPinFuture::new_with_input_pin`
(`src/gpio/asynch.rs:170`): `configure_edge_interrupt(edge)`, then
`enable_interrupt(true)` — the store of `false` into the pin's
`edge_detection` slot present in the vor1x variant is absent. -/
def new_with_input_pin_vor4x (edge : InterruptEdge) (s : PinWaitState) : PinWaitState :=
  let s := { s with edge_cfg := some edge }
  { s with irq_pin_enabled := true }

/-- C7 evaluation at the failing input: on a pin whose `edge_detected`
flag is still `true` (left over from an earlier abandoned wait), the
vor4x constructor arms the interrupt with the stale flag still set —
contradicting the claim that both variants clear it — while the vor1x
constructor clears it as claimed. -/
theorem vor4x_wait_construction_keeps_stale_edge_flag :
    (new_with_input_pin_vor4x InterruptEdge.LowToHigh
      (PinWaitState.mk true none false)).edge_detected = true ∧
    (new_with_input_pin_vor4x InterruptEdge.LowToHigh
      (PinWaitState.mk true none false)).irq_pin_enabled = true ∧
    (new_with_input_pin_vor1x InterruptEdge.LowToHigh
      (PinWaitState.mk true none false)).edge_detected = false ∧
    (new_with_input_pin_vor1x InterruptEdge.LowToHigh
      (PinWaitState.mk true none false)).irq_pin_enabled = true :=
  ⟨rfl, rfl, rfl, rfl⟩

/-!
### UART RX overwriting interrupt handler
(`src/uart/rx_asynch.rs:131`, C8)

Both drain loops of `on_interrupt_rx_async_heapless_queue_overwriting`
run the same per-byte body: read a byte from the hardware FIFO; if the
ring-buffer producer is not ready (buffer full), record the overflow and
dequeue one byte through the interrupt-masked shared consumer; then
enqueue the new byte. The ring buffer is a queue of bytes with capacity
`cap`; its content is the list of buffered bytes, oldest first.
-/

/-- `heapless::spsc` enqueue as used via `prod.enqueue(byte).ok()`: append
when there is room, silently discard the error otherwise. -/
def spsc_enqueue (cap : Nat) (q : List Nat) (b : Nat) : List Nat :=
  if q.length < cap then q ++ [b] else q

/-- The per-byte body of the overwriting drain loops: when the producer
is not ready (`!prod.ready()`), flag the overflow and dequeue the oldest
byte to make room; then enqueue. Returns the new buffer content and
whether this byte overflowed. -/
def rx_overwrite_byte (cap : Nat) (q : List Nat) (b : Nat) : List Nat × Bool :=
  if ¬ q.length < cap then (spsc_enqueue cap (q.drop 1) b, true)
  else (spsc_enqueue cap q b, false)

/-- Feeding a whole byte sequence through the overwriting handler:
the buffer content after the drain loop has consumed `bs`. -/
def rx_overwrite_run (cap : Nat) (q : List Nat) (bs : List Nat) : List Nat :=
  bs.foldl (fun acc b => (rx_overwrite_byte cap acc b).1) q

/-- Closed form of the overwriting drain: the final buffer is the suffix
of `q ++ bs` that fits in the capacity. -/
theorem rx_overwrite_run_eq (cap : Nat) (hcap : 0 < cap) :
    ∀ (bs q : List Nat), q.length ≤ cap →
      rx_overwrite_run cap q bs = (q ++ bs).drop (q.length + bs.length - cap) := by
  intro bs
  induction bs with
  | nil =>
    intro q hq
    have h0 : q.length + List.length ([] : List Nat) - cap = 0 := by simp; omega
    simp only [rx_overwrite_run, List.foldl_nil, List.append_nil, h0, List.drop_zero]
  | cons b rest ih =>
    intro q hq
    have hstep : rx_overwrite_run cap q (b :: rest) =
        rx_overwrite_run cap ((rx_overwrite_byte cap q b).1) rest := rfl
    by_cases hfull : q.length < cap
    · have hb : (rx_overwrite_byte cap q b).1 = q ++ [b] := by
        simp [rx_overwrite_byte, hfull, spsc_enqueue]
      rw [hstep, hb, ih (q ++ [b]) (by simp; omega)]
      have harith : (q ++ [b]).length + rest.length - cap =
          q.length + (b :: rest).length - cap := by
        simp
        omega
      rw [harith, List.append_assoc, List.singleton_append]
    · have hlen : q.length = cap := by omega
      cases q with
      | nil =>
        rw [List.length_nil] at hlen
        omega
      | cons c q2 =>
        rw [List.length_cons] at hlen
        have hq2 : q2.length < cap := by omega
        have hb : (rx_overwrite_byte cap (c :: q2) b).1 = q2 ++ [b] := by
          simp only [rx_overwrite_byte, if_pos hfull, spsc_enqueue, List.drop_succ_cons,
            List.drop_zero]
          rw [if_pos hq2]
        rw [hstep, hb, ih (q2 ++ [b]) (by simp; omega)]
        have h1 : (q2 ++ [b]).length + rest.length - cap = rest.length := by simp; omega
        have h2 : (c :: q2).length + (b :: rest).length - cap = rest.length + 1 := by
          simp
          omega
        rw [h1, h2, List.cons_append, List.drop_succ_cons, List.append_assoc,
          List.singleton_append]

/-- C8: in the overwriting RX handler, a byte arriving while the ring
buffer is full causes exactly one oldest byte to be dequeued before the
new byte is enqueued; the buffer length never exceeds the capacity; and
after feeding any sequence at least as long as the capacity the buffer
holds exactly the most recent `cap` bytes in arrival order. -/
theorem rx_overwrite_spec (cap : Nat) (q bs : List Nat) (hcap : 0 < cap)
    (hq : q.length ≤ cap) :
    (∀ b, q.length = cap → rx_overwrite_byte cap q b = (q.drop 1 ++ [b], true)) ∧
    (rx_overwrite_run cap q bs).length ≤ cap ∧
    (cap ≤ bs.length → rx_overwrite_run cap q bs = bs.drop (bs.length - cap)) := by
  refine ⟨?_, ?_, ?_⟩
  · intro b hlen
    have hnot : ¬ q.length < cap := by omega
    have hq2 : (q.drop 1).length < cap := by
      rw [List.length_drop]
      omega
    simp only [rx_overwrite_byte, if_pos hnot, spsc_enqueue, if_pos hq2]
  · rw [rx_overwrite_run_eq cap hcap bs q hq, List.length_drop, List.length_append]
    omega
  · intro hbs
    rw [rx_overwrite_run_eq cap hcap bs q hq]
    have harith : q.length + bs.length - cap = q.length + (bs.length - cap) := by omega
    rw [harith, ← List.drop_drop, List.drop_left]

/-- Witness for `rx_overwrite_spec`: capacity 2, feeding 1,2,3 into an
empty buffer keeps the most recent two bytes. -/
theorem rx_overwrite_spec_witness :
    0 < 2 ∧ List.length ([] : List Nat) ≤ 2 ∧ 2 ≤ List.length [1, 2, 3] ∧
      rx_overwrite_run 2 [] [1, 2, 3] = [2, 3] :=
  ⟨by decide, by decide, by decide, by
    have h := (rx_overwrite_spec 2 [] [1, 2, 3] (by decide) (by decide)).2.2 (by decide)
    simpa using h⟩

/-!
### UART async TX pipeline (`src/uart/tx_asynch.rs`, C9 and C10)

Per-bank state: the `TxContext` (`progress`, `tx_overrun`, the borrowed
slice), the `TX_DONE` sticky flag, a wake counter for the bank's waker,
and the hardware bits the code toggles (TX interrupt enables, transmitter
enable) plus a log `fifo` of the bytes pushed to the data register since
the last FIFO clear. Hardware inputs read inside the ISR (`tx_busy`,
`wr_lost`, and the per-read `ready()` line) are explicit parameters. -/
structure TxModel where
  progress : Nat
  tx_overrun : Bool
  slice : List Nat
  fifo : List Nat
  irq_tx : Bool
  irq_tx_status : Bool
  irq_tx_empty : Bool
  tx_enabled : Bool
  done : Bool
  wakeCount : Nat

/-- `TxFuture::new` (`src/uart/tx_asynch.rs:116`): clear `TX_DONE`,
disable the TX interrupts and the transmitter, clear the TX FIFO, prefill
the FIFO with `min(data.len(), 16)` bytes, then (inside one critical
section) store the slice and the progress into the context and re-enable
the TX interrupts and the transmitter. -/
def TxFuture.new (data : List Nat) (s : TxModel) : TxModel :=
  let s := { s with done := false }
  let s := { s with irq_tx := false, irq_tx_status := false, irq_tx_empty := false }
  let s := { s with tx_enabled := false }
  let s := { s with fifo := [] }
  let init_fill_count := min data.length 16
  let s := { s with fifo := s.fifo ++ data.take init_fill_count }
  { s with slice := data, progress := init_fill_count,
           irq_tx := true, irq_tx_status := true, irq_tx_empty := true, tx_enabled := true }

/-- The `while` drain loop of `on_interrupt_tx`
(`src/uart/tx_asynch.rs:72`): while `progress < slice.len()` and the
hardware reports ready, write `slice[progress]` and advance. `ready k` is
the value of the `k`-th `read_tx_status().ready()` read of this ISR
invocation. Returns the final progress and the bytes written. -/
def tx_drain (slice : List Nat) (ready : Nat → Bool) (k progress : Nat) : Nat × List Nat :=
  if h : progress < slice.length then
    if ready k then
      let r := tx_drain slice ready (k + 1) (progress + 1)
      (r.1, slice[progress] :: r.2)
    else (progress, [])
  else (progress, [])
termination_by slice.length - progress

/-- `on_interrupt_tx` (`src/uart/tx_asynch.rs:32`): return early unless a
TX interrupt source is enabled; record the observed `wr_lost` overrun into
the context; when the operation is logically complete
(`progress >= slice.len()`) and the hardware is not busy, disable the TX
interrupts and the transmitter, write the context back, set `TX_DONE` and
wake; otherwise run the drain loop and write the context back. -/
def on_interrupt_tx (busy wr_lost : Bool) (ready : Nat → Bool) (s : TxModel) : TxModel :=
  if ¬ s.irq_tx ∧ ¬ s.irq_tx_empty then s
  else if s.slice.length ≤ s.progress ∧ busy = false then
    { s with irq_tx := false, irq_tx_empty := false, irq_tx_status := false,
             tx_enabled := false, tx_overrun := wr_lost, done := true,
             wakeCount := s.wakeCount + 1 }
  else
    let r := tx_drain s.slice ready 0 s.progress
    { s with tx_overrun := wr_lost, progress := r.1, fifo := s.fifo ++ r.2 }

/-- `TxFuture::poll` (`src/uart/tx_asynch.rs:148`): register the waker,
swap `TX_DONE` to false; when it was set, return `Poll::Ready(Ok(progress))`
with the context's progress. `none` models `Poll::Pending`; the error
variant of the `Result` mirrors `TxOverrunError`. -/
def TxFuture.poll (s : TxModel) : TxModel × Option (Except Unit Nat) :=
  if s.done then ({ s with done := false }, some (Except.ok s.progress))
  else (s, none)

/-- The drain loop never advances `progress` past the slice length. -/
theorem tx_drain_le (slice : List Nat) (ready : Nat → Bool) :
    ∀ n k progress, slice.length - progress ≤ n → progress ≤ slice.length →
      (tx_drain slice ready k progress).1 ≤ slice.length := by
  intro n
  induction n with
  | zero =>
    intro k progress hn hp
    have hnot : ¬ progress < slice.length := by omega
    unfold tx_drain
    rw [dif_neg hnot]
    exact hp
  | succ n ih =>
    intro k progress hn hp
    unfold tx_drain
    by_cases h : progress < slice.length
    · rw [dif_pos h]
      by_cases hr : ready k
      · rw [if_pos hr]
        exact ih (k + 1) (progress + 1) (by omega) (by omega)
      · rw [if_neg hr]
        exact hp
    · rw [dif_neg h]
      exact hp

/-- C9: starting an async transmission of a buffer of length `L` with the
hardware FIFO depth 16 prefills the FIFO with exactly `min(16, L)` bytes
(the first `min(16, L)` bytes of the buffer) and sets `progress` to that
count; the TX interrupt handler never advances `progress` beyond `L`; the
completion flag is set (and the waker woken) only when `progress >= L`
and the hardware reports not busy; and a poll that observes the flag
returns the final progress. -/
theorem tx_pipeline_spec (data : List Nat) (s : TxModel) (busy wr_lost : Bool)
    (ready : Nat → Bool) (st : TxModel) (hst : st.progress ≤ st.slice.length) :
    ((TxFuture.new data s).progress = min data.length 16 ∧
     (TxFuture.new data s).fifo = data.take (min data.length 16) ∧
     (TxFuture.new data s).fifo.length = min data.length 16 ∧
     (TxFuture.new data s).progress ≤ (TxFuture.new data s).slice.length) ∧
    (on_interrupt_tx busy wr_lost ready st).progress ≤ st.slice.length ∧
    ((on_interrupt_tx busy wr_lost ready st).done = true →
      st.done = true ∨ (st.slice.length ≤ st.progress ∧ busy = false)) ∧
    ((on_interrupt_tx busy wr_lost ready st).wakeCount ≠ st.wakeCount →
      st.slice.length ≤ st.progress ∧ busy = false) ∧
    (st.done = true →
      TxFuture.poll st = ({ st with done := false }, some (Except.ok st.progress))) := by
  refine ⟨⟨rfl, by simp [TxFuture.new], ?_, ?_⟩, ?_, ?_, ?_, ?_⟩
  · simp [TxFuture.new]
  · simp only [TxFuture.new]
    omega
  · unfold on_interrupt_tx
    by_cases h1 : ¬ st.irq_tx ∧ ¬ st.irq_tx_empty
    · rw [if_pos h1]
      exact hst
    · rw [if_neg h1]
      by_cases h2 : st.slice.length ≤ st.progress ∧ busy = false
      · rw [if_pos h2]
        exact hst
      · rw [if_neg h2]
        exact tx_drain_le st.slice ready st.slice.length 0 st.progress (by omega) hst
  · unfold on_interrupt_tx
    by_cases h1 : ¬ st.irq_tx ∧ ¬ st.irq_tx_empty
    · rw [if_pos h1]
      exact fun h => Or.inl h
    · rw [if_neg h1]
      by_cases h2 : st.slice.length ≤ st.progress ∧ busy = false
      · rw [if_pos h2]
        exact fun _ => Or.inr h2
      · rw [if_neg h2]
        exact fun h => Or.inl h
  · unfold on_interrupt_tx
    by_cases h1 : ¬ st.irq_tx ∧ ¬ st.irq_tx_empty
    · rw [if_pos h1]
      exact fun h => absurd rfl h
    · rw [if_neg h1]
      by_cases h2 : st.slice.length ≤ st.progress ∧ busy = false
      · rw [if_pos h2]
        exact fun _ => h2
      · rw [if_neg h2]
        exact fun h => absurd rfl h
  · intro hd
    unfold TxFuture.poll
    rw [if_pos hd]

/-- The all-clear TX state before any transmission. -/
def txInit : TxModel :=
  { progress := 0, tx_overrun := false, slice := [], fifo := [],
    irq_tx := false, irq_tx_status := false, irq_tx_empty := false,
    tx_enabled := false, done := false, wakeCount := 0 }

/-- A 17-byte buffer: one byte longer than the hardware FIFO depth. -/
def txData17 : List Nat := [0, 1, 2, 3, 4, 5, 6, 7, 8, 9, 10, 11, 12, 13, 14, 15, 16]

/-- Witness for `tx_pipeline_spec`: a 17-byte transfer prefills 16 bytes,
and an ISR invocation on the started transfer keeps `progress` within the
buffer length. -/
theorem tx_pipeline_spec_witness :
    (TxFuture.new txData17 txInit).progress ≤ (TxFuture.new txData17 txInit).slice.length ∧
      (TxFuture.new txData17 txInit).progress = min txData17.length 16 ∧
      (on_interrupt_tx false false (fun _ => true)
        (TxFuture.new txData17 txInit)).progress ≤ (TxFuture.new txData17 txInit).slice.length :=
  ⟨by decide,
    (tx_pipeline_spec txData17 txInit false false (fun _ => true)
      (TxFuture.new txData17 txInit) (by decide)).1.1,
    (tx_pipeline_spec txData17 txInit false false (fun _ => true)
      (TxFuture.new txData17 txInit) (by decide)).2.1⟩

/-- C10 evaluation at the failing input: completing a 1-byte transfer
whose final ISR observes `wr_lost = true` records the overrun into the
context (`tx_overrun = true`) and sets the completion flag, yet the
subsequent poll returns the unconditional success `Ok(progress)`: the
recorded overrun is never attached to the ISR's result (the ISR returns
nothing) nor to the poll's result, and the poll can in fact never return
the error variant for any state. -/
theorem tx_overrun_never_surfaced :
    (on_interrupt_tx false true (fun _ => true) (TxFuture.new [7] txInit)).tx_overrun = true ∧
    (on_interrupt_tx false true (fun _ => true) (TxFuture.new [7] txInit)).done = true ∧
    (TxFuture.poll (on_interrupt_tx false true (fun _ => true)
      (TxFuture.new [7] txInit))).2 = some (Except.ok 1) ∧
    (∀ st : TxModel, (TxFuture.poll st).2 = none ∨
      (TxFuture.poll st).2 = some (Except.ok st.progress)) := by
  refine ⟨rfl, rfl, rfl, ?_⟩
  intro st
  unfold TxFuture.poll
  by_cases h : st.done
  · rw [if_pos h]
    exact Or.inr rfl
  · rw [if_neg h]
    exact Or.inl rfl
